import Mathlib

/-!
Shallow embedding of the DMMF transformation engine (`transformDmmf` and its
helper passes) of the `prisma-client-js` runtime generator.

The embedding follows the TypeScript source function by function:
`transformDmmf`, `filterInputTypes`, `filterOutputTypes`,
`transformOrderInputTypes`, `transformWhereInputTypes`, `getFilterName`,
`getWhereInputName`, `makeFilterType`, `getRelationFilterArgs`,
`getScalarFilterArgs`, `getBaseFilters`, `getStringFilters`,
`getAlphanumericFilters`, `getInclusionFilters`, `getScalarArgs`,
`getScalarArg`.

JavaScript string primitives (`endsWith`, `includes`, `lastIndexOf`,
`slice(0, e)`) are modelled over `String.data : List Char`.  The mutable
arrays pushed to inside the TS loops become list appends; the mutable
`filterTypes` dictionary (string keys, insertion order preserved, as for a JS
object) becomes an association list threaded through a fold.  Fields absent
from a JS object literal (e.g. `isRelationFilter` on args built by
`getScalarArg`) are modelled as `false`, matching JS truthiness.

`mappings`, `queries` and `mutations` are carried through `transformDmmf`
completely untouched by the source, and no claim concerns them, so the
`Document` structure here omits them.
-/

/-- `listStarts pat s` : `pat` is a (char-wise) prefix of `s`. -/
def listStarts : List Char → List Char → Bool
  | [], _ => true
  | _ :: _, [] => false
  | p :: ps, c :: cs => p == c && listStarts ps cs

/-- JS `s.endsWith(suffixStr)`. -/
def strEndsWith (s sfx : String) : Bool :=
  listStarts sfx.data.reverse s.data.reverse

/-- JS `s.includes(sub)` (substring containment). -/
def strIncludes (s sub : String) : Bool :=
  (List.range (s.data.length + 1)).any (fun i => listStarts sub.data (s.data.drop i))

/-- Helper for `jsLastIndexOf`: largest `i ≤ fuel` with `pat` occurring at `i`,
or `-1` if none. -/
def lastIdxGo (s pat : List Char) : Nat → Int
  | 0 => if listStarts pat s then 0 else -1
  | i + 1 => if listStarts pat (s.drop (i + 1)) then ((i + 1 : Nat) : Int) else lastIdxGo s pat i

/-- JS `s.lastIndexOf(pat)`: the largest index at which `pat` occurs in `s`,
`-1` if it does not occur. -/
def jsLastIndexOf (s pat : String) : Int :=
  lastIdxGo s.data pat.data s.data.length

/-- JS `s.slice(0, e)`: for `e ≥ 0` take the first `e` characters, for `e < 0`
the end index counts back from the end of the string. -/
def jsSlice0 (s : String) (e : Int) : String :=
  if e < 0 then ⟨s.data.take (s.data.length - e.natAbs)⟩ else ⟨s.data.take e.toNat⟩

/-- Helper for `uniqBy`: keep each element whose key has not been seen yet
(structural recursion so that the kernel can evaluate it). -/
def uniqByAux {α : Type} : List α → (α → String) → List String → List α
  | [], _, _ => []
  | x :: xs, f, seen =>
    if seen.contains (f x) then uniqByAux xs f seen
    else x :: uniqByAux xs f (f x :: seen)

/-- Modelled from the spec: `uniqBy` from `./utils/common` (not part of the
provided sources) — "deduplicate input/output type descriptors by name, first
occurrence wins". -/
def uniqBy {α : Type} (l : List α) (f : α → String) : List α :=
  uniqByAux l f []

/-- DMMF datamodel field. -/
structure DmmfField where
  name : String
  type : String
  kind : String
  isList : Bool
  isRequired : Bool
deriving DecidableEq

/-- DMMF datamodel model. -/
structure Model where
  name : String
  fields : List DmmfField
deriving DecidableEq

/-- DMMF schema enum. -/
structure DmmfEnum where
  name : String
  values : List String
deriving DecidableEq

/-- DMMF schema arg.  Optional TS fields default to `false`. -/
structure SchemaArg where
  name : String
  type : List String
  isEnum : Bool
  isList : Bool
  isRequired : Bool
  isScalar : Bool
  isRelationFilter : Bool := false
deriving DecidableEq

/-- DMMF input type.  Optional TS flags default to `false`. -/
structure InputType where
  name : String
  args : List SchemaArg
  atLeastOne : Bool := false
  atMostOne : Bool := false
  isWhereType : Bool := false
  isOrderType : Bool := false
deriving DecidableEq

/-- DMMF output type: an opaque descriptor; the transform only ever reads its
name (dedup and pruning), so only the name is modelled. -/
structure OutputType where
  name : String
deriving DecidableEq

structure Datamodel where
  models : List Model
deriving DecidableEq

structure Schema where
  enums : List DmmfEnum
  outputTypes : List OutputType
  inputTypes : List InputType
deriving DecidableEq

structure Document where
  datamodel : Datamodel
  schema : Schema
deriving DecidableEq

/-- `getFilterName` from the source. -/
def getFilterName (type : String) (isRequired : Bool) : String :=
  (if isRequired then "" else "Nullable") ++ type ++ "Filter"

/-- `getWhereInputName` from the source. -/
def getWhereInputName (type : String) : String :=
  type ++ "WhereInput"

/-- `getScalarArg` from the source. -/
def getScalarArg (name : String) (type : List String) (isList : Bool) : SchemaArg :=
  { name := name, isEnum := false, isList := isList, isRequired := false, isScalar := true,
    type := type }

/-- `getScalarArgs` from the source (`isList` defaults to `false`). -/
def getScalarArgs (names : List String) (type : List String) (isList : Bool := false) :
    List SchemaArg :=
  names.map (fun name => getScalarArg name type isList)

/-- `getInclusionFilters` from the source. -/
def getInclusionFilters (type : String) : List SchemaArg :=
  getScalarArgs ["in", "notIn"] [type] true

/-- `getAlphanumericFilters` from the source. -/
def getAlphanumericFilters (type : String) : List SchemaArg :=
  getScalarArgs ["lt", "lte", "gt", "gte"] [type]

/-- `getStringFilters` from the source. -/
def getStringFilters (type : String) : List SchemaArg :=
  getScalarArgs ["contains", "startsWith", "endsWith"] [type]

/-- `getBaseFilters` from the source. -/
def getBaseFilters (type : String) (isRequired : Bool) : List SchemaArg :=
  let filterName := getFilterName type isRequired
  let nullArray : List String := if isRequired then [] else ["null"]
  getScalarArgs ["equals"] ([type] ++ nullArray) ++
    getScalarArgs ["not"] ([type] ++ nullArray ++ [filterName])

/-- `getScalarFilterArgs` from the source (`isEnum` defaults to `false`; the
`switch` on the type name becomes an `if` chain with the same cases and the
same fall-through to `[]`). -/
def getScalarFilterArgs (type : String) (isRequired : Bool) (isEnum : Bool := false) :
    List SchemaArg :=
  if isEnum then
    getBaseFilters type isRequired ++ getInclusionFilters type
  else if type == "String" || type == "ID" || type == "UUID" then
    getBaseFilters type isRequired ++ getInclusionFilters type ++
      getAlphanumericFilters type ++ getStringFilters type
  else if type == "Int" || type == "Float" || type == "DateTime" then
    getBaseFilters type isRequired ++ getInclusionFilters type ++ getAlphanumericFilters type
  else if type == "Boolean" then
    getBaseFilters type isRequired
  else
    []

/-- `getRelationFilterArgs` from the source. -/
def getRelationFilterArgs (type : String) : List SchemaArg :=
  getScalarArgs ["every", "some", "none"] [getWhereInputName type]

/-- `makeFilterType` from the source. -/
def makeFilterType (type : String) (isRequired : Bool) (isScalar : Bool) : InputType :=
  { name := getFilterName type (isRequired || !isScalar),
    args := if isScalar then getScalarFilterArgs type isRequired else getRelationFilterArgs type,
    atLeastOne := true }

/-- The entity-name extraction in `transformWhereInputTypes`:
`type.name.slice(0, type.name.lastIndexOf('WhereInput'))`. -/
def whereModelName (typeName : String) : String :=
  jsSlice0 typeName (jsLastIndexOf typeName "WhereInput")

/-- The operator whitelist of `transformWhereInputTypes`:
`['AND','OR','NOT']` plus the names of the model's non-list relation fields. -/
def whereWhiteList (model : Model) : List String :=
  ["AND", "OR", "NOT"] ++
    (model.fields.filter (fun f => f.kind == "relation" && !f.isList)).map (fun f => f.name)

/-- The field filter of `transformWhereInputTypes`:
`f.kind === 'relation' ? f.isList : !f.isList`. -/
def whereFieldPred (f : DmmfField) : Bool :=
  if f.kind == "relation" then f.isList else !f.isList

/-- The arg synthesized for one model field inside `transformWhereInputTypes`
(the body of the `.map` at lines 106–135 of the source, minus the cache
side effect, which does not influence the produced arg). -/
def synthWhereArg (f : DmmfField) : SchemaArg :=
  let typeList : List String :=
    (if f.kind != "relation" then [f.type] else []) ++
      [getFilterName f.type (f.isRequired || f.kind == "relation")] ++
      (if !f.isRequired && f.kind != "relation" then ["null"] else [])
  { name := f.name, type := typeList, isScalar := false, isRequired := false, isEnum := false,
    isList := false, isRelationFilter := false }

/-- The per-type rewriting of `transformWhereInputTypes`: each input type is
pushed either unchanged (non-`WhereInput` name, or no matching model) or as
the rebuilt where-type.  The produced type does not depend on the filter-type
cache, so it is factored out of the cache threading. -/
def processWhereType (models : List Model) (type : InputType) : InputType :=
  if !(strEndsWith type.name "WhereInput") then type
  else
    match models.find? (fun m => m.name == whereModelName type.name) with
    | none => type
    | some model =>
      let args :=
        (type.args.filter (fun a => (whereWhiteList model).contains a.name)).map
          (fun a => { a with isRelationFilter := true })
      { name := type.name,
        args := (model.fields.filter whereFieldPred).map synthWhereArg ++ args,
        isWhereType := true,
        atLeastOne := true }

/-- The key under which `transformWhereInputTypes` caches a field's filter
type: `getFilterName(f.type, f.isRequired || f.kind === 'relation')`. -/
def cacheKey (f : DmmfField) : String :=
  getFilterName f.type (f.isRequired || f.kind == "relation")

/-- The cache update for one synthesized field: insert
`makeFilterType(f.type, f.isRequired, f.kind !== 'relation')` unless the key
is already present (JS object keys keep insertion order, hence the append). -/
def updateCacheField (cache : List (String × InputType)) (f : DmmfField) :
    List (String × InputType) :=
  if (cache.find? (fun p => p.1 == cacheKey f)).isSome then cache
  else cache ++ [(cacheKey f, makeFilterType f.type f.isRequired (f.kind != "relation"))]

/-- The cache updates contributed by one input type in
`transformWhereInputTypes` (no updates for pass-through types). -/
def updateCacheType (models : List Model) (cache : List (String × InputType))
    (type : InputType) : List (String × InputType) :=
  if !(strEndsWith type.name "WhereInput") then cache
  else
    match models.find? (fun m => m.name == whereModelName type.name) with
    | none => cache
    | some model => (model.fields.filter whereFieldPred).foldl updateCacheField cache

/-- The `filterTypes` dictionary after the loop of `transformWhereInputTypes`. -/
def whereFilterTypes (models : List Model) (types : List InputType) :
    List (String × InputType) :=
  types.foldl (updateCacheType models) []

/-- `transformWhereInputTypes` from the source. -/
def transformWhereInputTypes (document : Document) : Document :=
  let models := document.datamodel.models
  let types := document.schema.inputTypes
  { document with
    schema := { document.schema with
      inputTypes :=
        types.map (processWhereType models) ++
          (whereFilterTypes models types).map (fun p => p.2) } }

/-- The `OrderByArg` enum unconditionally emitted by
`transformOrderInputTypes`. -/
def orderByArgEnum : DmmfEnum :=
  { name := "OrderByArg", values := ["asc", "desc"] }

/-- The arg-name recovery of `transformOrderInputTypes`:
`curr.slice(0, curr.lastIndexOf('_ASC'))`. -/
def orderArgName (v : String) : String :=
  jsSlice0 v (jsLastIndexOf v "_ASC")

/-- One arg of a synthesized order input type. -/
def orderArg (name : String) : SchemaArg :=
  { name := name, type := ["OrderByArg"], isEnum := false, isList := false,
    isRelationFilter := false, isRequired := false, isScalar := true }

/-- The input type `transformOrderInputTypes` builds from one
`<Entity>OrderByInput` enum (the `reduce` over values keeps exactly the values
ending in `'ASC'`). -/
def orderInputType (e : DmmfEnum) : InputType :=
  let argNames :=
    e.values.foldl (fun acc curr =>
      if strEndsWith curr "ASC" then acc ++ [orderArgName curr] else acc) []
  { name := e.name, atLeastOne := true, atMostOne := true, isOrderType := true,
    args := argNames.map orderArg }

/-- `transformOrderInputTypes` from the source: enums not ending in
`OrderByInput` pass through after the synthesized `OrderByArg`; each enum
ending in `OrderByInput` is dropped from the enums and appended to the input
types as `orderInputType`. -/
def transformOrderInputTypes (document : Document) : Document :=
  { document with
    schema := { document.schema with
      inputTypes :=
        document.schema.inputTypes ++
          (document.schema.enums.filter
              (fun t => strEndsWith t.name "OrderByInput")).map orderInputType,
      enums :=
        orderByArgEnum ::
          document.schema.enums.filter (fun t => !(strEndsWith t.name "OrderByInput")) } }

/-- `filterInputTypes` from the source. -/
def filterInputTypes (types : List InputType) : List InputType :=
  (uniqBy types (fun o => o.name)).filter
    (fun o => !(strIncludes o.name "Subscription") && !(o.name == "MutationType"))

/-- `filterOutputTypes` from the source. -/
def filterOutputTypes (types : List OutputType) : List OutputType :=
  (uniqBy types (fun o => o.name)).filter
    (fun o => !(strEndsWith o.name "PreviousValues") && !(strIncludes o.name "Subscription"))

/-- `transformDmmf` from the source. -/
def transformDmmf (document : Document) : Document :=
  let doc := transformOrderInputTypes (transformWhereInputTypes document)
  { datamodel := doc.datamodel,
    schema :=
      { enums := doc.schema.enums,
        outputTypes := filterOutputTypes doc.schema.outputTypes,
        inputTypes := filterInputTypes doc.schema.inputTypes } }

/-! ### Concrete documents used by the claims -/

/-- The `User` model of the spec's concrete where-scenario. -/
def userModel : Model :=
  { name := "User", fields := [
      { name := "id", type := "ID", kind := "scalar", isList := false, isRequired := true },
      { name := "name", type := "String", kind := "scalar", isList := false, isRequired := false },
      { name := "posts", type := "Post", kind := "relation", isList := true, isRequired := false },
      { name := "profile", type := "Profile", kind := "relation", isList := false,
        isRequired := false }] }

/-- An original arg of the naively generated `UserWhereInput`. -/
def mkUserOrigArg (n : String) : SchemaArg :=
  { name := n, type := ["UserWhereInput"], isEnum := false, isList := true, isRequired := false,
    isScalar := false }

/-- The naively generated `UserWhereInput` with args `[AND, OR, NOT, profile]`. -/
def userWhereInputInit : InputType :=
  { name := "UserWhereInput",
    args := [mkUserOrigArg "AND", mkUserOrigArg "OR", mkUserOrigArg "NOT",
      mkUserOrigArg "profile"] }

/-- The document of the spec's concrete where-scenario. -/
def userDoc : Document :=
  { datamodel := { models := [userModel] },
    schema := { enums := [], outputTypes := [], inputTypes := [userWhereInputInit] } }

/-- A document whose single model has one required enum-kind field. -/
def enumDoc : Document :=
  { datamodel := { models := [
      { name := "M", fields := [
          { name := "c", type := "Color", kind := "enum", isList := false,
            isRequired := true }] }] },
    schema := { enums := [], outputTypes := [],
                inputTypes := [{ name := "MWhereInput", args := [] }] } }

/-- A where-input type whose entity name resolves to no model. -/
def ghostWhere : InputType :=
  { name := "GhostWhereInput", args := [] }

/-- A document containing `ghostWhere` and no models. -/
def ghostDoc : Document :=
  { datamodel := { models := [] },
    schema := { enums := [], outputTypes := [], inputTypes := [ghostWhere] } }

/-! ### Claims -/

/-- **C1.** For the entity `User { id: ID!, name: String, posts: Post[] (list
relation), profile: Profile (single relation) }` with initial
`UserWhereInput.args = [AND, OR, NOT, profile]`, the where-pass produces a
`UserWhereInput` whose args are ordered `[id, name, posts, AND, OR, NOT,
profile]`, with `id.type = [ID, IDFilter]`,
`name.type = [String, NullableStringFilter, null]`, `posts.type = [PostFilter]`
where `PostFilter` is a relation filter with args `every/some/none` each typed
`PostWhereInput`, and `profile` retained from the original args with
`isRelationFilter = true`. -/
theorem c1_user_where_scenario :
    ((transformWhereInputTypes userDoc).schema.inputTypes.map (fun t => t.name))
      = ["UserWhereInput", "IDFilter", "NullableStringFilter", "PostFilter"]
    ∧ (((transformWhereInputTypes userDoc).schema.inputTypes.head?).map
        (fun t => t.args.map (fun a => (a.name, a.type, a.isRelationFilter))))
      = some [("id", ["ID", "IDFilter"], false),
          ("name", ["String", "NullableStringFilter", "null"], false),
          ("posts", ["PostFilter"], false),
          ("AND", ["UserWhereInput"], true), ("OR", ["UserWhereInput"], true),
          ("NOT", ["UserWhereInput"], true), ("profile", ["UserWhereInput"], true)]
    ∧ (((transformWhereInputTypes userDoc).schema.inputTypes.find?
          (fun t => t.name == "PostFilter")).map
        (fun t => t.args.map (fun a => (a.name, a.type))))
      = some [("every", ["PostWhereInput"]), ("some", ["PostWhereInput"]),
          ("none", ["PostWhereInput"])] := by
  decide

/-- **C2, counterexample.** A required enum-kind field of base type `Color`
yields a `ColorFilter` whose arg list is empty: it contains neither the
inclusion operators `in`/`notIn` nor the ordering operators, contradicting the
claim.  (`makeFilterType` invokes `getScalarFilterArgs` without its `isEnum`
flag, so the enum name falls through the scalar `switch` to `[]`.) -/
theorem c2_counterexample :
    (transformWhereInputTypes enumDoc).schema.inputTypes.find?
        (fun t => t.name == "ColorFilter")
      = some { name := "ColorFilter", args := [], atLeastOne := true }
    ∧ ((makeFilterType "Color" true true).args.filter
        (fun a => a.name == "in" || a.name == "notIn" || a.name == "lt")) = [] := by
  decide

/-- **C2, amended.** For every field whose base type is not one of the built-in
scalar names (in particular every enum base type), the filter type actually
built (`makeFilterType` with `isScalar = true`, which never sets the `isEnum`
flag of `getScalarFilterArgs`) has an empty arg list; the dead `isEnum` branch
of `getScalarFilterArgs`, if invoked directly, would produce exactly the base
operators `equals`, `not` plus the inclusion operators `in`, `notIn` — and no
ordering operators. -/
theorem c2_enum_filter_amended (t : String) (r : Bool)
    (h : t ∉ (["String", "ID", "UUID", "Int", "Float", "DateTime", "Boolean"] : List String)) :
    (makeFilterType t r true).args = []
    ∧ (getScalarFilterArgs t r true).map (fun a => a.name)
        = ["equals", "not", "in", "notIn"] := by
  simp only [List.mem_cons, List.not_mem_nil, or_false, not_or] at h
  obtain ⟨h1, h2, h3, h4, h5, h6, h7⟩ := h
  constructor
  · simp [makeFilterType, getScalarFilterArgs, h1, h2, h3, h4, h5, h6, h7]
  · cases r <;>
      simp [getScalarFilterArgs, getBaseFilters, getInclusionFilters, getScalarArgs,
        getScalarArg]

theorem c2_enum_filter_amended_witness :
    (makeFilterType "Color" true true).args = []
    ∧ (getScalarFilterArgs "Color" true true).map (fun a => a.name)
        = ["equals", "not", "in", "notIn"] :=
  c2_enum_filter_amended "Color" true (by decide)

/-- **C6.** For every input type whose name ends in `WhereInput` such that no
model matches the entity name obtained by stripping the `WhereInput` suffix,
the where-pass leaves the type in the output unmodified and raises no
failure. -/
theorem c6_unresolvable_passthrough (d : Document) (t : InputType)
    (h1 : t ∈ d.schema.inputTypes)
    (h2 : strEndsWith t.name "WhereInput" = true)
    (h3 : d.datamodel.models.find? (fun m => m.name == whereModelName t.name) = none) :
    processWhereType d.datamodel.models t = t
    ∧ t ∈ (transformWhereInputTypes d).schema.inputTypes := by
  have hpt : processWhereType d.datamodel.models t = t := by
    unfold processWhereType
    simp [h2, h3]
  refine ⟨hpt, ?_⟩
  unfold transformWhereInputTypes
  simp only []
  apply List.mem_append_left
  have hm := List.mem_map_of_mem (processWhereType d.datamodel.models) h1
  rwa [hpt] at hm

theorem c6_unresolvable_passthrough_witness :
    processWhereType ghostDoc.datamodel.models ghostWhere = ghostWhere
    ∧ ghostWhere ∈ (transformWhereInputTypes ghostDoc).schema.inputTypes :=
  c6_unresolvable_passthrough ghostDoc ghostWhere (by decide) (by decide) (by decide)

/-- **C9.** For every processed where-type, the synthesized filter args are
exactly one per model field that is either a list-valued relation or a
non-list non-relation (scalar/enum) field — scalar lists and singular
relations never produce a synthesized arg, the latter being retained only
through the operator whitelist — and the synthesized args precede the
whitelisted original args. -/
theorem c9_synthesized_fields (models : List Model) (t : InputType) (model : Model)
    (h1 : strEndsWith t.name "WhereInput" = true)
    (h2 : models.find? (fun m => m.name == whereModelName t.name) = some model) :
    (processWhereType models t).args
      = (model.fields.filter (fun f =>
            (f.kind == "relation" && f.isList) || (f.kind != "relation" && !f.isList))).map
          synthWhereArg
        ++ (t.args.filter (fun a => (whereWhiteList model).contains a.name)).map
            (fun a => { a with isRelationFilter := true }) := by
  unfold processWhereType
  simp only [h1, h2, Bool.not_true, Bool.false_eq_true, if_false]
  have hf : model.fields.filter whereFieldPred
      = model.fields.filter (fun f =>
          (f.kind == "relation" && f.isList) || (f.kind != "relation" && !f.isList)) := by
    apply List.filter_congr
    intro f _
    by_cases hk : f.kind = "relation" <;> cases hl : f.isList <;>
      simp [whereFieldPred, hk, hl]
  rw [hf]

theorem c9_synthesized_fields_witness :
    (processWhereType [userModel] userWhereInputInit).args
      = (userModel.fields.filter (fun f =>
            (f.kind == "relation" && f.isList) || (f.kind != "relation" && !f.isList))).map
          synthWhereArg
        ++ (userWhereInputInit.args.filter
            (fun a => (whereWhiteList userModel).contains a.name)).map
            (fun a => { a with isRelationFilter := true }) :=
  c9_synthesized_fields [userModel] userWhereInputInit userModel (by decide) (by decide)

/-- **C10.** Every synthesized field-filter arg of a where-type has
`isRequired = false`, `isList = false`, `isScalar = false`, `isEnum = false`
and `isRelationFilter = false`, regardless of the underlying model field's
`isRequired`, `isList` or `kind`. -/
theorem c10_synth_arg_flags (f : DmmfField) :
    (synthWhereArg f).isRequired = false ∧ (synthWhereArg f).isList = false
    ∧ (synthWhereArg f).isScalar = false ∧ (synthWhereArg f).isEnum = false
    ∧ (synthWhereArg f).isRelationFilter = false :=
  ⟨rfl, rfl, rfl, rfl, rfl⟩

/-! ### Dedup lemmas for the finisher -/

/-- Every element of `uniqByAux l f seen` comes from `l`. -/
theorem uniqByAux_subset {α : Type} (f : α → String) (l : List α) :
    ∀ (seen : List String) (a : α), a ∈ uniqByAux l f seen → a ∈ l := by
  induction l with
  | nil => intro seen a h; simp [uniqByAux] at h
  | cons x xs ih =>
    intro seen a h
    cases hc : seen.contains (f x) <;> rw [uniqByAux] at h <;> rw [hc] at h
    · simp only [Bool.false_eq_true, if_false] at h
      rcases List.mem_cons.mp h with h1 | h2
      · exact h1 ▸ List.mem_cons_self x xs
      · exact List.mem_cons_of_mem x (ih _ a h2)
    · simp only [if_true] at h
      exact List.mem_cons_of_mem x (ih _ a h)

/-- `uniqByAux` produces pairwise distinct keys, all outside `seen`. -/
theorem uniqByAux_nodup {α : Type} (f : α → String) (l : List α) :
    ∀ (seen : List String),
      ((uniqByAux l f seen).map f).Nodup
      ∧ ∀ a ∈ uniqByAux l f seen, f a ∉ seen := by
  induction l with
  | nil => intro seen; simp [uniqByAux]
  | cons x xs ih =>
    intro seen
    cases hc : seen.contains (f x) <;> rw [uniqByAux] <;> rw [hc]
    · simp only [Bool.false_eq_true, if_false]
      obtain ⟨hnd, hns⟩ := ih (f x :: seen)
      refine ⟨?_, ?_⟩
      · simp only [List.map_cons, List.nodup_cons]
        refine ⟨?_, hnd⟩
        intro hmem
        rcases List.mem_map.mp hmem with ⟨y, hy, hfy⟩
        exact hns y hy (by rw [hfy]; exact List.mem_cons_self _ _)
      · intro a ha hseen
        rcases List.mem_cons.mp ha with h1 | h2
        · have hin : f x ∈ seen := h1 ▸ hseen
          simp at hc
          exact hc hin
        · exact hns a h2 (List.mem_cons_of_mem _ hseen)
    · simp only [if_true]
      obtain ⟨hnd, hns⟩ := ih seen
      exact ⟨hnd, hns⟩

/-- `uniqBy` produces pairwise distinct keys. -/
theorem uniqBy_nodup {α : Type} (f : α → String) (l : List α) :
    ((uniqBy l f).map f).Nodup :=
  (uniqByAux_nodup f l []).1

/-- **C5.** No two entries of the final document's `schema.inputTypes` share a
name and no two entries of its `schema.outputTypes` share a name. -/
theorem c5_unique_names (d : Document) :
    (((transformDmmf d).schema.inputTypes).map (fun t => t.name)).Nodup
    ∧ (((transformDmmf d).schema.outputTypes).map (fun o => o.name)).Nodup := by
  constructor
  · show (((filterInputTypes
        ((transformOrderInputTypes (transformWhereInputTypes d)).schema.inputTypes)).map
          (fun t => t.name))).Nodup
    unfold filterInputTypes
    apply List.Nodup.sublist (List.Sublist.map _ (List.filter_sublist _))
    exact uniqBy_nodup _ _
  · show (((filterOutputTypes
        ((transformOrderInputTypes (transformWhereInputTypes d)).schema.outputTypes)).map
          (fun o => o.name))).Nodup
    unfold filterOutputTypes
    apply List.Nodup.sublist (List.Sublist.map _ (List.filter_sublist _))
    exact uniqBy_nodup _ _

/-- A document with one inert input type and one inert output type. -/
def plainIn : InputType := { name := "A", args := [] }

def plainOut : OutputType := { name := "B" }

def plainDoc : Document :=
  { datamodel := { models := [] },
    schema := { enums := [], outputTypes := [plainOut], inputTypes := [plainIn] } }

/-- **C8.** No input or output type whose name contains `Subscription`, no
output type whose name ends in `PreviousValues`, and no input type named
exactly `MutationType` is present in the final document. -/
theorem c8_pruned_types (d : Document) (t : InputType) (o : OutputType)
    (ht : t ∈ (transformDmmf d).schema.inputTypes)
    (ho : o ∈ (transformDmmf d).schema.outputTypes) :
    strIncludes t.name "Subscription" = false ∧ t.name ≠ "MutationType"
    ∧ strIncludes o.name "Subscription" = false
    ∧ strEndsWith o.name "PreviousValues" = false := by
  have ht' : t ∈ filterInputTypes
      ((transformOrderInputTypes (transformWhereInputTypes d)).schema.inputTypes) := ht
  have ho' : o ∈ filterOutputTypes
      ((transformOrderInputTypes (transformWhereInputTypes d)).schema.outputTypes) := ho
  unfold filterInputTypes at ht'
  unfold filterOutputTypes at ho'
  have hpt := (List.mem_filter.mp ht').2
  have hpo := (List.mem_filter.mp ho').2
  simp only [Bool.and_eq_true, Bool.not_eq_true', beq_eq_false_iff_ne, ne_eq] at hpt hpo
  exact ⟨hpt.1, hpt.2, hpo.2, hpo.1⟩

theorem c8_pruned_types_witness :
    strIncludes plainIn.name "Subscription" = false ∧ plainIn.name ≠ "MutationType"
    ∧ strIncludes plainOut.name "Subscription" = false
    ∧ strEndsWith plainOut.name "PreviousValues" = false :=
  c8_pruned_types plainDoc plainIn plainOut (by decide) (by decide)

/-! ### The `OrderByArg` enum -/

/-- A document whose input already contains an enum named `OrderByArg`. -/
def clashDoc : Document :=
  { datamodel := { models := [] },
    schema := { enums := [{ name := "OrderByArg", values := ["x"] }], outputTypes := [],
                inputTypes := [] } }

/-- **C7, counterexample.** When the input document itself contains an enum
named `OrderByArg`, the final document contains two enums of that name (the
synthesized one plus the pass-through), not exactly one as claimed: enums are
never deduplicated. -/
theorem c7_counterexample :
    ((transformDmmf clashDoc).schema.enums.filter (fun e => e.name == "OrderByArg")).length
      = 2 := by
  decide

/-- **C7, amended.** Provided no input enum is itself named `OrderByArg`, the
final document's `schema.enums` contains exactly one enum named `OrderByArg`,
with values `[asc, desc]`, regardless of how many (including zero)
`OrderByInput` enums existed in the input. -/
theorem c7_orderbyarg_amended (d : Document)
    (h : ∀ e ∈ d.schema.enums, e.name ≠ "OrderByArg") :
    (transformDmmf d).schema.enums.filter (fun e => e.name == "OrderByArg")
      = [orderByArgEnum] := by
  have henums : (transformDmmf d).schema.enums
      = orderByArgEnum ::
          d.schema.enums.filter (fun t => !(strEndsWith t.name "OrderByInput")) := rfl
  rw [henums, List.filter_cons]
  have hhead : (orderByArgEnum.name == "OrderByArg") = true := by decide
  simp only [hhead, if_true]
  have htail : (d.schema.enums.filter (fun t => !(strEndsWith t.name "OrderByInput"))).filter
      (fun e => e.name == "OrderByArg") = [] := by
    rw [List.filter_eq_nil_iff]
    intro e he
    have hmem := List.mem_of_mem_filter he
    simp only [beq_iff_eq]
    exact h e hmem
  rw [htail]

theorem c7_orderbyarg_amended_witness :
    (transformDmmf ghostDoc).schema.enums.filter (fun e => e.name == "OrderByArg")
      = [orderByArgEnum] :=
  c7_orderbyarg_amended ghostDoc (by decide)

/-! ### String lemmas for the order pass -/

theorem listStarts_iff (p : List Char) : ∀ (s : List Char),
    listStarts p s = true ↔ ∃ t, s = p ++ t := by
  induction p with
  | nil => intro s; simp [listStarts]
  | cons a ps ih =>
    intro s
    cases s with
    | nil => simp [listStarts]
    | cons b bs =>
      rw [listStarts]
      simp only [Bool.and_eq_true, beq_iff_eq, ih]
      constructor
      · rintro ⟨rfl, t, rfl⟩
        exact ⟨t, rfl⟩
      · rintro ⟨t, ht⟩
        rw [List.cons_append] at ht
        injection ht with h1 h2
        exact ⟨h1.symm, t, h2⟩

theorem listStarts_length {p s : List Char} (h : listStarts p s = true) :
    p.length ≤ s.length := by
  obtain ⟨t, rfl⟩ := (listStarts_iff p s).mp h
  simp [List.length_append]

theorem listStarts_refl (p : List Char) : listStarts p p = true :=
  (listStarts_iff p p).mpr ⟨[], (List.append_nil p).symm⟩

/-- If `pat` occurs at `i0` and nowhere in `(i0, j]`, the scan from `j` finds
`i0`. -/
theorem lastIdxGo_eq (s pat : List Char) (i0 : Nat)
    (h0 : listStarts pat (s.drop i0) = true) :
    ∀ (j : Nat), i0 ≤ j →
      (∀ k, i0 < k → k ≤ j → listStarts pat (s.drop k) = false) →
      lastIdxGo s pat j = (i0 : Int) := by
  intro j
  induction j with
  | zero =>
    intro hij _
    have hz : i0 = 0 := Nat.le_zero.mp hij
    subst hz
    rw [List.drop_zero] at h0
    simp [lastIdxGo, h0]
  | succ j ih =>
    intro hij hno
    by_cases he : i0 = j + 1
    · subst he
      simp [lastIdxGo, h0]
    · have hle : i0 ≤ j := Nat.lt_succ_iff.mp (Nat.lt_of_le_of_ne hij he)
      have hf : listStarts pat (s.drop (j + 1)) = false :=
        hno (j + 1) (Nat.lt_succ_of_le hle) (Nat.le_refl _)
      rw [lastIdxGo, hf]
      simp only [Bool.false_eq_true, if_false]
      exact ih hle (fun k hk1 hk2 => hno k hk1 (Nat.le_succ_of_le hk2))

theorem strEndsWith_exists {s sfx : String} (h : strEndsWith s sfx = true) :
    ∃ pre, s.data = pre ++ sfx.data := by
  unfold strEndsWith at h
  obtain ⟨t, ht⟩ := (listStarts_iff _ _).mp h
  refine ⟨t.reverse, ?_⟩
  have := congrArg List.reverse ht
  rwa [List.reverse_reverse, List.reverse_append, List.reverse_reverse] at this

/-- For a string ending in `sfx`, `lastIndexOf` finds the final occurrence. -/
theorem jsLastIndexOf_endsWith {v sfx : String} (h : strEndsWith v sfx = true) :
    jsLastIndexOf v sfx = ((v.data.length - sfx.data.length : Nat) : Int) := by
  obtain ⟨pre, hv⟩ := strEndsWith_exists h
  have hn : v.data.length = pre.length + sfx.data.length := by
    rw [hv, List.length_append]
  have hpre : pre.length = v.data.length - sfx.data.length := by omega
  have h0 : listStarts sfx.data (v.data.drop pre.length) = true := by
    rw [hv, List.drop_left]
    exact listStarts_refl _
  have hno : ∀ k, pre.length < k → k ≤ v.data.length →
      listStarts sfx.data (v.data.drop k) = false := by
    intro k hk1 hk2
    by_contra hcon
    have htrue : listStarts sfx.data (v.data.drop k) = true := by
      cases hb : listStarts sfx.data (v.data.drop k)
      · exact absurd hb hcon
      · rfl
    have hlen := listStarts_length htrue
    rw [List.length_drop] at hlen
    omega
  unfold jsLastIndexOf
  rw [lastIdxGo_eq v.data sfx.data pre.length h0 v.data.length (by omega) hno, hpre]

/-- For a value genuinely ending in `_ASC`, the order pass recovers exactly
the part before that suffix. -/
theorem orderArgName_strip {v : String} (h : strEndsWith v "_ASC" = true) :
    (orderArgName v).data ++ ("_ASC" : String).data = v.data := by
  obtain ⟨pre, hv⟩ := strEndsWith_exists h
  have hidx := jsLastIndexOf_endsWith h
  unfold orderArgName jsSlice0
  rw [hidx]
  rw [if_neg (by exact Int.not_lt.mpr (Int.natCast_nonneg _))]
  have htn : ((v.data.length - ("_ASC" : String).data.length : Nat) : Int).toNat
      = v.data.length - ("_ASC" : String).data.length := Int.toNat_natCast _
  rw [htn]
  have hpre : pre.length = v.data.length - ("_ASC" : String).data.length := by
    have := congrArg List.length hv
    rw [List.length_append] at this
    omega
  show v.data.take (v.data.length - ("_ASC" : String).data.length) ++ _ = v.data
  rw [← hpre, hv, List.take_left]

/-- Pushing under a boolean guard in a fold collects exactly the filtered
images. -/
theorem foldl_if_push {α β : Type} (p : α → Bool) (g : α → β) :
    ∀ (l : List α) (acc : List β),
      l.foldl (fun a c => if p c then a ++ [g c] else a) acc
        = acc ++ (l.filter p).map g := by
  intro l
  induction l with
  | nil => intro acc; simp
  | cons x xs ih =>
    intro acc
    rw [List.foldl_cons, List.filter_cons]
    by_cases hp : p x
    · simp only [hp, if_true, ih, List.map_cons]
      simp [List.append_assoc]
    · simp [hp, ih]

/-! ### The order pass -/

/-- An `OrderByInput` enum with a value ending in `ASC` but not `_ASC`. -/
def oddOrderDoc : Document :=
  { datamodel := { models := [] },
    schema := { enums := [{ name := "UOrderByInput", values := ["fooASC"] }],
                outputTypes := [], inputTypes := [] } }

/-- **C3, counterexample.** For the enum `UOrderByInput` with single value
`fooASC`, no value ends in `_ASC`, so the claim requires the synthesized
input type to have no args; the code instead matches the bare suffix `ASC`
and, with `lastIndexOf('_ASC') = -1`, `slice(0, -1)` drops only the final
character, producing one arg named `fooAS`. -/
theorem c3_counterexample :
    (["fooASC"].filter (fun v => strEndsWith v "_ASC")) = []
    ∧ ((transformOrderInputTypes oddOrderDoc).schema.inputTypes.map
        (fun t => (t.name, t.args.map (fun a => a.name))))
      = [("UOrderByInput", ["fooAS"])] := by
  decide

/-- **C3, amended.** For every enum whose name ends in `OrderByInput`: the
enum is removed from `schema.enums` (only non-`OrderByInput` enums pass
through, behind the synthesized `OrderByArg`), and an InputType of the same
name with `isOrderType = atLeastOne = atMostOne = true` is appended to the
input types, containing one arg per enum value ending in `ASC` (not `_ASC` as
claimed), named `value.slice(0, value.lastIndexOf('_ASC'))` — which strips the
suffix exactly when the value really ends in `_ASC` — each typed
`[OrderByArg]`, non-list, non-required, scalar. -/
theorem c3_order_pass_amended (d : Document) (e : DmmfEnum) (v : String)
    (hmem : e ∈ d.schema.enums)
    (he : strEndsWith e.name "OrderByInput" = true)
    (hv : strEndsWith v "_ASC" = true) :
    (transformOrderInputTypes d).schema.enums
      = orderByArgEnum :: d.schema.enums.filter (fun t => !(strEndsWith t.name "OrderByInput"))
    ∧ (∀ t ∈ (transformOrderInputTypes d).schema.enums, t.name ≠ e.name)
    ∧ orderInputType e ∈ (transformOrderInputTypes d).schema.inputTypes
    ∧ (orderInputType e).name = e.name
    ∧ (orderInputType e).isOrderType = true
    ∧ (orderInputType e).atLeastOne = true
    ∧ (orderInputType e).atMostOne = true
    ∧ (orderInputType e).args
        = (e.values.filter (fun c => strEndsWith c "ASC")).map
            (fun c => orderArg (orderArgName c))
    ∧ (orderArgName v).data ++ ("_ASC" : String).data = v.data
    ∧ (∀ n, (orderArg n).type = ["OrderByArg"] ∧ (orderArg n).isList = false
        ∧ (orderArg n).isRequired = false ∧ (orderArg n).isScalar = true
        ∧ (orderArg n).isEnum = false) := by
  refine ⟨rfl, ?_, ?_, rfl, rfl, rfl, rfl, ?_, orderArgName_strip hv,
    fun n => ⟨rfl, rfl, rfl, rfl, rfl⟩⟩
  · intro t htmem heq
    rcases List.mem_cons.mp htmem with h1 | h2
    · rw [h1] at heq
      rw [← heq] at he
      exact absurd he (by decide)
    · have hfe := (List.mem_filter.mp h2).2
      rw [heq, he] at hfe
      simp at hfe
  · show orderInputType e ∈
      d.schema.inputTypes ++
        (d.schema.enums.filter (fun t => strEndsWith t.name "OrderByInput")).map orderInputType
    exact List.mem_append_right _
      (List.mem_map_of_mem _ (List.mem_filter.mpr ⟨hmem, he⟩))
  · show (orderInputType e).args = _
    unfold orderInputType
    simp only []
    rw [foldl_if_push (fun c => strEndsWith c "ASC") orderArgName e.values []]
    simp [List.map_map, Function.comp]

/-- The `UserOrderByInput` enum of the spec's concrete order-scenario. -/
def userOrderEnum : DmmfEnum :=
  { name := "UserOrderByInput", values := ["id_ASC", "id_DESC", "name_ASC", "name_DESC"] }

def userOrderDoc : Document :=
  { datamodel := { models := [] },
    schema := { enums := [userOrderEnum], outputTypes := [], inputTypes := [] } }

theorem c3_order_pass_amended_witness :
    (transformOrderInputTypes userOrderDoc).schema.enums
      = orderByArgEnum ::
          userOrderDoc.schema.enums.filter (fun t => !(strEndsWith t.name "OrderByInput"))
    ∧ (∀ t ∈ (transformOrderInputTypes userOrderDoc).schema.enums, t.name ≠ userOrderEnum.name)
    ∧ orderInputType userOrderEnum ∈ (transformOrderInputTypes userOrderDoc).schema.inputTypes
    ∧ (orderInputType userOrderEnum).name = userOrderEnum.name
    ∧ (orderInputType userOrderEnum).isOrderType = true
    ∧ (orderInputType userOrderEnum).atLeastOne = true
    ∧ (orderInputType userOrderEnum).atMostOne = true
    ∧ (orderInputType userOrderEnum).args
        = (userOrderEnum.values.filter (fun c => strEndsWith c "ASC")).map
            (fun c => orderArg (orderArgName c))
    ∧ (orderArgName "id_ASC").data ++ ("_ASC" : String).data = ("id_ASC" : String).data
    ∧ (∀ n, (orderArg n).type = ["OrderByArg"] ∧ (orderArg n).isList = false
        ∧ (orderArg n).isRequired = false ∧ (orderArg n).isScalar = true
        ∧ (orderArg n).isEnum = false) :=
  c3_order_pass_amended userOrderDoc userOrderEnum "id_ASC" (by decide) (by decide) (by decide)

/-! ### The filter-type cache -/

/-- The filter type created for a field is stored under a key equal to its own
name. -/
theorem makeFilterType_name_key (f : DmmfField) :
    (makeFilterType f.type f.isRequired (f.kind != "relation")).name = cacheKey f := by
  unfold makeFilterType cacheKey
  simp [bne, Bool.not_not]

theorem updateCacheField_inv (c : List (String × InputType)) (f : DmmfField)
    (h1 : ∀ q ∈ c, q.2.name = q.1) (h2 : (c.map Prod.fst).Nodup) :
    (∀ q ∈ updateCacheField c f, q.2.name = q.1)
    ∧ ((updateCacheField c f).map Prod.fst).Nodup := by
  unfold updateCacheField
  by_cases hs : (c.find? (fun p => p.1 == cacheKey f)).isSome = true
  · simp only [hs, if_true]
    exact ⟨h1, h2⟩
  · simp only [hs, Bool.false_eq_true, if_false]
    constructor
    · intro q hq
      rcases List.mem_append.mp hq with h | h
      · exact h1 q h
      · rw [List.mem_singleton] at h
        subst h
        exact makeFilterType_name_key f
    · rw [List.map_append, List.nodup_append]
      refine ⟨h2, List.nodup_singleton _, ?_⟩
      intro a ha hb
      simp only [List.map_cons, List.map_nil, List.mem_singleton] at hb
      subst hb
      have hnone : c.find? (fun p => p.1 == cacheKey f) = none := by
        cases hfind : c.find? (fun p => p.1 == cacheKey f)
        · rfl
        · rw [hfind] at hs
          simp at hs
      have hall := List.find?_eq_none.mp hnone
      rcases List.mem_map.mp ha with ⟨q, hq, hfst⟩
      exact hall q hq (by simp [hfst])

theorem foldl_updateCacheField_inv (fs : List DmmfField) :
    ∀ (c : List (String × InputType)),
      (∀ q ∈ c, q.2.name = q.1) → ((c.map Prod.fst).Nodup) →
      (∀ q ∈ fs.foldl updateCacheField c, q.2.name = q.1)
      ∧ ((fs.foldl updateCacheField c).map Prod.fst).Nodup := by
  induction fs with
  | nil => intro c h1 h2; exact ⟨h1, h2⟩
  | cons f fs ih =>
    intro c h1 h2
    rw [List.foldl_cons]
    obtain ⟨h1', h2'⟩ := updateCacheField_inv c f h1 h2
    exact ih _ h1' h2'

theorem updateCacheType_inv (models : List Model) (c : List (String × InputType))
    (t : InputType)
    (h1 : ∀ q ∈ c, q.2.name = q.1) (h2 : (c.map Prod.fst).Nodup) :
    (∀ q ∈ updateCacheType models c t, q.2.name = q.1)
    ∧ ((updateCacheType models c t).map Prod.fst).Nodup := by
  unfold updateCacheType
  cases hb : strEndsWith t.name "WhereInput"
  · simp only [hb, Bool.not_false, if_true]
    exact ⟨h1, h2⟩
  · simp only [hb, Bool.not_true, Bool.false_eq_true, if_false]
    cases hm : models.find? (fun m => m.name == whereModelName t.name)
    · exact ⟨h1, h2⟩
    · exact foldl_updateCacheField_inv _ c h1 h2

theorem whereFilterTypes_inv (models : List Model) (types : List InputType) :
    (∀ q ∈ whereFilterTypes models types, q.2.name = q.1)
    ∧ ((whereFilterTypes models types).map Prod.fst).Nodup := by
  unfold whereFilterTypes
  suffices hgen : ∀ (c : List (String × InputType)),
      (∀ q ∈ c, q.2.name = q.1) → ((c.map Prod.fst).Nodup) →
      (∀ q ∈ types.foldl (updateCacheType models) c, q.2.name = q.1)
      ∧ ((types.foldl (updateCacheType models) c).map Prod.fst).Nodup by
    exact hgen [] (by intro q hq; simp at hq) (by simp)
  induction types with
  | nil => intro c h1 h2; exact ⟨h1, h2⟩
  | cons t ts ih =>
    intro c h1 h2
    rw [List.foldl_cons]
    obtain ⟨h1', h2'⟩ := updateCacheType_inv models c t h1 h2
    exact ih _ h1' h2'

/-- **C4.** Every filter type accumulated in the cache is stored under its own
name; the cache keys — hence the appended filter-type names — are pairwise
distinct, so each distinct filter type is appended to the input-type list
exactly once after all where-types are processed; and the arg synthesized for
a field references the filter name
`(requiredEffective ? '' : 'Nullable') + baseType + 'Filter'` with
`requiredEffective = isRequired || kind == relation`, so two fields sharing
base type and nullability class reference the same cached filter type. -/
theorem c4_filter_sharing (d : Document) (q : String × InputType) (f : DmmfField)
    (hq : q ∈ whereFilterTypes d.datamodel.models d.schema.inputTypes) :
    q.2.name = q.1
    ∧ ((whereFilterTypes d.datamodel.models d.schema.inputTypes).map
        (fun p => p.2.name)).Nodup
    ∧ (transformWhereInputTypes d).schema.inputTypes
        = d.schema.inputTypes.map (processWhereType d.datamodel.models)
          ++ (whereFilterTypes d.datamodel.models d.schema.inputTypes).map (fun p => p.2)
    ∧ cacheKey f = getFilterName f.type (f.isRequired || f.kind == "relation")
    ∧ cacheKey f ∈ (synthWhereArg f).type := by
  obtain ⟨hnames, hnodup⟩ := whereFilterTypes_inv d.datamodel.models d.schema.inputTypes
  refine ⟨hnames q hq, ?_, rfl, rfl, ?_⟩
  · have hcongr : (whereFilterTypes d.datamodel.models d.schema.inputTypes).map
        (fun p => p.2.name)
        = (whereFilterTypes d.datamodel.models d.schema.inputTypes).map Prod.fst :=
      List.map_congr_left (fun p hp => hnames p hp)
    rw [hcongr]
    exact hnodup
  · unfold synthWhereArg cacheKey
    simp [List.mem_append]

/-- The cache entry produced for the `id: ID!` field of `userModel`. -/
def idFilterEntry : String × InputType := ("IDFilter", makeFilterType "ID" true true)

def idField : DmmfField :=
  { name := "id", type := "ID", kind := "scalar", isList := false, isRequired := true }

theorem c4_filter_sharing_witness :
    idFilterEntry.2.name = idFilterEntry.1
    ∧ ((whereFilterTypes userDoc.datamodel.models userDoc.schema.inputTypes).map
        (fun p => p.2.name)).Nodup
    ∧ (transformWhereInputTypes userDoc).schema.inputTypes
        = userDoc.schema.inputTypes.map (processWhereType userDoc.datamodel.models)
          ++ (whereFilterTypes userDoc.datamodel.models userDoc.schema.inputTypes).map
              (fun p => p.2)
    ∧ cacheKey idField = getFilterName idField.type (idField.isRequired || idField.kind == "relation")
    ∧ cacheKey idField ∈ (synthWhereArg idField).type :=
  c4_filter_sharing userDoc idFilterEntry idField (by decide)
